import Mathlib

/-!
Verification of the ray-tracer core (bahelms/ray_tracer).

The Rust source works on `f64`; this development embeds that arithmetic as
exact real arithmetic (`ℝ`): every `f64` value, field and operation of the
source is translated to the corresponding real number and real operation
(`powf` becomes `Real.rpow`, `sqrt` becomes `Real.sqrt`).  Rounding error and
IEEE special values are outside the model; where a claim turns on a degenerate
IEEE division the theorem exhibits the exact `0 / 0` division the code
performs.  Definitions mirror the source files `src/lib.rs`, `src/tuple.rs`,
`src/matrix/mod.rs`, `src/matrix/transformations.rs`, `src/canvas.rs` and
`src/rays.rs`, keeping the source's names.
-/

namespace RayTracer

noncomputable section

/-! ## src/lib.rs -/

/-- `EPSILON` from src/lib.rs. -/
def EPSILON : ℝ := 0.00001

/-- `is_float_equal` from src/lib.rs: `(a - b).abs() < EPSILON`. -/
def is_float_equal (a b : ℝ) : Prop := |a - b| < EPSILON

/-! ## src/tuple.rs -/

/-- `Tuple` from src/tuple.rs: four `f64` components. -/
structure Tuple where
  x : ℝ
  y : ℝ
  z : ℝ
  w : ℝ

/-- `Tuple::point`: `w = 1.0`. -/
def Tuple.point (x y z : ℝ) : Tuple := ⟨x, y, z, 1⟩

/-- `Tuple::vector`: `w = 0.0`. -/
def Tuple.vector (x y z : ℝ) : Tuple := ⟨x, y, z, 0⟩

/-- `impl Add for Tuple`: component-wise. -/
def Tuple.add (a b : Tuple) : Tuple := ⟨a.x + b.x, a.y + b.y, a.z + b.z, a.w + b.w⟩

/-- `impl Sub for Tuple`: component-wise. -/
def Tuple.sub (a b : Tuple) : Tuple := ⟨a.x - b.x, a.y - b.y, a.z - b.z, a.w - b.w⟩

/-- `impl Neg for Tuple`: component-wise. -/
def Tuple.neg (a : Tuple) : Tuple := ⟨-a.x, -a.y, -a.z, -a.w⟩

/-- `impl Mul<f64> for Tuple`: scale every component. -/
def Tuple.mulScalar (a : Tuple) (scalar : ℝ) : Tuple :=
  ⟨a.x * scalar, a.y * scalar, a.z * scalar, a.w * scalar⟩

/-- `Tuple::dot`: over all four components. -/
def Tuple.dot (a b : Tuple) : ℝ := a.x * b.x + a.y * b.y + a.z * b.z + a.w * b.w

/-- `Tuple::magnitude`: `(x.powf(2.0) + y.powf(2.0) + z.powf(2.0) + w.powf(2.0)).sqrt()`;
`powf` is embedded as `Real.rpow`. -/
def Tuple.magnitude (a : Tuple) : ℝ :=
  Real.sqrt (a.x ^ (2 : ℝ) + a.y ^ (2 : ℝ) + a.z ^ (2 : ℝ) + a.w ^ (2 : ℝ))

/-- `Tuple::normalize`: divide every component (including `w`) by the magnitude.
The source builds a vector from `x/m, y/m, z/m` and then overwrites `w` with `w/m`. -/
def Tuple.normalize (a : Tuple) : Tuple :=
  ⟨a.x / a.magnitude, a.y / a.magnitude, a.z / a.magnitude, a.w / a.magnitude⟩

/-- `Tuple::reflect`: `*self - *normal * 2.0 * self.dot(normal)`. -/
def Tuple.reflect (a normal : Tuple) : Tuple :=
  a.sub ((normal.mulScalar 2).mulScalar (a.dot normal))

/-- `Color` from src/tuple.rs. -/
structure Color where
  red : ℝ
  green : ℝ
  blue : ℝ

/-- `Color::black`. -/
def Color.black : Color := ⟨0, 0, 0⟩

/-- `Color::white`. -/
def Color.white : Color := ⟨1, 1, 1⟩

/-- `impl Add for Color` (also `impl Add for &Color`): component-wise sum. -/
def Color.add (a b : Color) : Color := ⟨a.red + b.red, a.green + b.green, a.blue + b.blue⟩

/-- `impl Sub for Color`: component-wise difference. -/
def Color.sub (a b : Color) : Color := ⟨a.red - b.red, a.green - b.green, a.blue - b.blue⟩

/-- `impl Mul<f64> for &Color`: scale every channel. -/
def Color.mulScalar (a : Color) (scalar : ℝ) : Color :=
  ⟨a.red * scalar, a.green * scalar, a.blue * scalar⟩

/-- `impl Mul for &Color`: component-wise (Hadamard) product. -/
def Color.mulColor (a b : Color) : Color :=
  ⟨a.red * b.red, a.green * b.green, a.blue * b.blue⟩

/-- `powf(2.0)` (embedded as `Real.rpow` at exponent 2) is plain squaring. -/
lemma rpow_two_eq_mul_self (x : ℝ) : x ^ (2 : ℝ) = x * x := by
  rw [show (2 : ℝ) = ((2 : ℕ) : ℝ) by norm_num, Real.rpow_natCast]
  ring

example : (Tuple.vector 0 0 (-10)).magnitude = 10 := by
  simp only [Tuple.magnitude, Tuple.vector, rpow_two_eq_mul_self]
  rw [show (0 : ℝ) * 0 + 0 * 0 + (-10 : ℝ) * -10 + 0 * 0 = 10 ^ 2 by norm_num,
    Real.sqrt_sq (by norm_num)]

/-! ## src/matrix/mod.rs -/

/-- `Matrix` from src/matrix/mod.rs: a vector of row vectors of `f64`. -/
structure Matrix where
  rows : List (List ℝ)

/-- Indexing `m[i][j]`.  The source panics out of bounds; all uses in this
development are in bounds, so the out-of-bounds default value is irrelevant. -/
def Matrix.get (m : Matrix) (i j : ℕ) : ℝ := (m.rows.getD i []).getD j 0

/-- `Matrix::identity` (hardcoded 4x4). -/
def Matrix.identity : Matrix :=
  ⟨[[1, 0, 0, 0],
    [0, 1, 0, 0],
    [0, 0, 1, 0],
    [0, 0, 0, 1]]⟩

/-- `Matrix::transpose`: clones the matrix and overwrites `transposed[idx][col]`
with `self[col][idx]`.  On the square matrices this program builds, every cell
is overwritten, which is what this definition expresses. -/
def Matrix.transpose (m : Matrix) : Matrix :=
  ⟨m.rows.mapIdx fun i row => row.mapIdx fun j _ => m.get j i⟩

/-- `Matrix::submatrix`: the source copies every row except `row_idx`, and in
each kept row every value except the one at `col_idx` — i.e. it erases the row
at `row_idx` and the column at `col_idx`. -/
def Matrix.submatrix (m : Matrix) (row_idx col_idx : ℕ) : Matrix :=
  ⟨(m.rows.eraseIdx row_idx).map fun row => row.eraseIdx col_idx⟩

lemma Matrix.submatrix_rows_length (m : Matrix) (col_idx : ℕ) (r : List ℝ)
    (rest : List (List ℝ)) (h : m.rows = r :: rest) :
    (m.submatrix 0 col_idx).rows.length = rest.length := by
  simp [Matrix.submatrix, h, List.eraseIdx]

/-- `Matrix::determinant`: 2x2 base case `a*d - b*c`, otherwise cofactor
expansion along row 0, `determinant += cofactor(0, col) * value`.  The source's
mutually recursive `cofactor`/`minor` calls are inlined here (`cofactor(0,col)`
is the submatrix determinant, negated when `0 + col` is odd); `Matrix.minor`
and `Matrix.cofactor` below are the named wrappers. -/
def Matrix.determinant (m : Matrix) : ℝ :=
  if m.rows.length = 2 then
    m.get 0 0 * m.get 1 1 - m.get 0 1 * m.get 1 0
  else
    match hrows : m.rows with
    | [] => 0
    | row0 :: _ =>
      row0.enum.foldl
        (fun det p =>
          det +
            (if (0 + p.1) % 2 = 0 then (m.submatrix 0 p.1).determinant
             else -(m.submatrix 0 p.1).determinant) * p.2)
        0
termination_by m.rows.length
decreasing_by
  all_goals
    have h := Matrix.submatrix_rows_length m p.1 row0 _ hrows
    simp only [h, hrows]
    simp [List.length_cons]

/-- `Matrix::minor`: determinant of the submatrix. -/
def Matrix.minor (m : Matrix) (row col : ℕ) : ℝ := (m.submatrix row col).determinant

/-- `Matrix::cofactor`: the minor, negated when `row + col` is odd. -/
def Matrix.cofactor (m : Matrix) (row col : ℕ) : ℝ :=
  if (row + col) % 2 = 0 then m.minor row col else -(m.minor row col)

/-- `Matrix::is_invertible`: `determinant != 0`. -/
def Matrix.is_invertible (m : Matrix) : Prop := m.determinant ≠ 0

/-- `Matrix::inverse`: `None` when not invertible, otherwise the clone with
every cell overwritten by `inverted[col][row] = cofactor(row, col) / det`
(the assignments cover every cell of a square matrix). -/
def Matrix.inverse (m : Matrix) : Option Matrix :=
  if m.determinant ≠ 0 then
    some ⟨m.rows.mapIdx fun i row => row.mapIdx fun j _ => m.cofactor j i / m.determinant⟩
  else
    none

/-- `impl Mul for Matrix` / `impl Mul for &Matrix`: hardcoded 4-term
row-by-column products, written into a clone of `self` for every
`row, col in 0..width` (all cells of a 4x4). -/
def Matrix.mul (m other : Matrix) : Matrix :=
  ⟨m.rows.mapIdx fun r row => row.mapIdx fun c _ =>
      m.get r 0 * other.get 0 c + m.get r 1 * other.get 1 c +
        m.get r 2 * other.get 2 c + m.get r 3 * other.get 3 c⟩

/-- `impl Mul<Tuple> for Matrix`: the tuple as a 4x1 column; `w` is taken from
row 3's result (the source builds a point and then overwrites `w`). -/
def Matrix.mulTuple (m : Matrix) (other : Tuple) : Tuple :=
  ⟨m.get 0 0 * other.x + m.get 0 1 * other.y + m.get 0 2 * other.z + m.get 0 3 * other.w,
   m.get 1 0 * other.x + m.get 1 1 * other.y + m.get 1 2 * other.z + m.get 1 3 * other.w,
   m.get 2 0 * other.x + m.get 2 1 * other.y + m.get 2 2 * other.z + m.get 2 3 * other.w,
   m.get 3 0 * other.x + m.get 3 1 * other.y + m.get 3 2 * other.z + m.get 3 3 * other.w⟩

example : (Matrix.mk [[1, 5], [-3, 2]]).determinant = 17 := by
  simp [Matrix.determinant, Matrix.get]
  norm_num

example :
    (Matrix.mk [[1, 2, 6], [-5, 8, -4], [2, 6, 4]]).determinant = -196 := by
  simp [Matrix.determinant, Matrix.submatrix, Matrix.get, List.enum, List.enumFrom,
    List.eraseIdx]
  norm_num

example :
    (Matrix.mk [[-2, -8, 3, 5], [-3, 1, 7, 3], [1, 2, -9, 6], [-6, 7, 7, -9]]).determinant
      = -4071 := by
  simp [Matrix.determinant, Matrix.submatrix, Matrix.get, List.enum, List.enumFrom,
    List.eraseIdx]
  norm_num

/-! ## src/matrix/transformations.rs

Each builder constructs `Matrix::identity()`, overwrites the listed cells, and
returns `&transform * self`; the overwritten identity is written out literally
here as the named transform matrix. -/

/-- The matrix built by `Matrix::translate`: identity with
`[0][3] = x, [1][3] = y, [2][3] = z`. -/
def translationMatrix (x y z : ℝ) : Matrix :=
  ⟨[[1, 0, 0, x],
    [0, 1, 0, y],
    [0, 0, 1, z],
    [0, 0, 0, 1]]⟩

/-- `Matrix::translate`: `&transform * self`. -/
def Matrix.translate (m : Matrix) (x y z : ℝ) : Matrix := (translationMatrix x y z).mul m

/-- The matrix built by `Matrix::scale`: identity with
`[0][0] = x, [1][1] = y, [2][2] = z`. -/
def scalingMatrix (x y z : ℝ) : Matrix :=
  ⟨[[x, 0, 0, 0],
    [0, y, 0, 0],
    [0, 0, z, 0],
    [0, 0, 0, 1]]⟩

/-- `Matrix::scale`: `&transform * self`. -/
def Matrix.scale (m : Matrix) (x y z : ℝ) : Matrix := (scalingMatrix x y z).mul m

/-- The matrix built by `Matrix::rotate_x`: identity with
`[1][1] = cos, [1][2] = -sin, [2][1] = sin, [2][2] = cos`. -/
def rotationXMatrix (radians : ℝ) : Matrix :=
  ⟨[[1, 0, 0, 0],
    [0, Real.cos radians, -Real.sin radians, 0],
    [0, Real.sin radians, Real.cos radians, 0],
    [0, 0, 0, 1]]⟩

/-- `Matrix::rotate_x`: `&transform * self`. -/
def Matrix.rotate_x (m : Matrix) (radians : ℝ) : Matrix := (rotationXMatrix radians).mul m

/-- The matrix built by `Matrix::rotate_y`. -/
def rotationYMatrix (radians : ℝ) : Matrix :=
  ⟨[[Real.cos radians, 0, Real.sin radians, 0],
    [0, 1, 0, 0],
    [-Real.sin radians, 0, Real.cos radians, 0],
    [0, 0, 0, 1]]⟩

/-- `Matrix::rotate_y`: `&transform * self`. -/
def Matrix.rotate_y (m : Matrix) (radians : ℝ) : Matrix := (rotationYMatrix radians).mul m

/-- The matrix built by `Matrix::rotate_z`. -/
def rotationZMatrix (radians : ℝ) : Matrix :=
  ⟨[[Real.cos radians, -Real.sin radians, 0, 0],
    [Real.sin radians, Real.cos radians, 0, 0],
    [0, 0, 1, 0],
    [0, 0, 0, 1]]⟩

/-- `Matrix::rotate_z`: `&transform * self`. -/
def Matrix.rotate_z (m : Matrix) (radians : ℝ) : Matrix := (rotationZMatrix radians).mul m

/-- The matrix built by `Matrix::shear`. -/
def shearingMatrix (xy xz yx yz zx zy : ℝ) : Matrix :=
  ⟨[[1, xy, xz, 0],
    [yx, 1, yz, 0],
    [zx, zy, 1, 0],
    [0, 0, 0, 1]]⟩

/-- `Matrix::shear`: `&transform * self`. -/
def Matrix.shear (m : Matrix) (xy xz yx yz zx zy : ℝ) : Matrix :=
  (shearingMatrix xy xz yx yz zx zy).mul m

/-! ## src/canvas.rs -/

/-- `Canvas` from src/canvas.rs: width, height (`i32`) and a flat pixel
vector. -/
structure Canvas where
  width : ℤ
  height : ℤ
  pixels : List Color

/-- `Canvas::new`: `width * height` black pixels. -/
def Canvas.new (width height : ℤ) : Canvas :=
  ⟨width, height, List.replicate (width * height).toNat Color.black⟩

/-- `Material` from src/rays.rs. -/
structure Material where
  color : Color
  ambient : ℝ
  diffuse : ℝ
  specular : ℝ
  shininess : ℝ

/-- `Material::new`: black color, ambient 0.1, diffuse 0.9, specular 0.9,
shininess 200. -/
def Material.new : Material := ⟨Color.black, 0.1, 0.9, 0.9, 200⟩

/-- `Sphere` from src/rays.rs.  The source draws `id` from a thread-local RNG;
the id plays no role in any claim below, so `with_transform` fixes it to 0. -/
structure Sphere where
  id : ℝ
  transform : Matrix
  material : Material

/-- `Sphere::with_transform` (random id modeled as 0). -/
def Sphere.with_transform (transform : Matrix) : Sphere := ⟨0, transform, Material.new⟩

/-- `Intersection` from src/rays.rs; the `&Sphere` borrow is modeled by
value. -/
structure Intersection where
  time : ℝ
  object : Sphere

/-- `Ray` from src/rays.rs. -/
structure Ray where
  origin : Tuple
  direction : Tuple

/-- `Ray::position`: `self.direction * time + self.origin`. -/
def Ray.position (r : Ray) (time : ℝ) : Tuple := (r.direction.mulScalar time).add r.origin

/-- `Ray::transform`: `origin' = m * origin`, `direction' = m * direction`. -/
def Ray.transformBy (r : Ray) (transformation : Matrix) : Ray :=
  ⟨transformation.mulTuple r.origin, transformation.mulTuple r.direction⟩

/-- `Ray::intersect` from src/rays.rs, line for line: `None` when the sphere's
transform has no inverse; otherwise the ray is moved to object space, the
quadratic `a, b, c` for the unit sphere at the origin is solved, `None` when
the discriminant is negative, and otherwise exactly the two roots
`(-b ∓ sqrt) / (2a)`, in that order, each carrying the sphere. -/
def Ray.intersect (r : Ray) (sphere : Sphere) : Option (List Intersection) :=
  let sphere_center := Tuple.point 0 0 0
  match sphere.transform.inverse with
  | none => none
  | some transform_inverse =>
    let new_ray := r.transformBy transform_inverse
    let center_to_origin := new_ray.origin.sub sphere_center
    let a := new_ray.direction.dot new_ray.direction
    let b := 2 * new_ray.direction.dot center_to_origin
    let c := center_to_origin.dot center_to_origin - 1
    let discriminant := b * b - 4 * a * c
    if discriminant < 0 then
      none
    else
      some [⟨(-b - Real.sqrt discriminant) / (2 * a), sphere⟩,
            ⟨(-b + Real.sqrt discriminant) / (2 * a), sphere⟩]

/-- `Sphere::normal_at` (the `Object` impl in src/rays.rs): `None` when the
transform has no inverse; otherwise the world point is moved to object space,
the center is subtracted, the result is pushed through the transposed inverse,
`w` is forced to 0, and the vector is normalized. -/
def Sphere.normal_at (s : Sphere) (world_point : Tuple) : Option Tuple :=
  match s.transform.inverse with
  | some inverse =>
    let center := Tuple.point 0 0 0
    let object_point := inverse.mulTuple world_point
    let object_normal := object_point.sub center
    let world_normal := inverse.transpose.mulTuple object_normal
    some { world_normal with w := 0 }.normalize
  | none => none

/-- The body of the `for` loop in `hit` (src/rays.rs): skip negative times,
adopt the first non-negative time, and replace the running hit only by a
strictly smaller time. -/
def hitStep (h : Option Intersection) (intersection : Intersection) : Option Intersection :=
  if intersection.time < 0 then h
  else
    match h with
    | none => some intersection
    | some last_hit => if intersection.time < last_hit.time then some intersection else h

/-- `hit` from src/rays.rs: linear scan with a running minimum. -/
def hit (intersections : List Intersection) : Option Intersection :=
  intersections.foldl hitStep none

/-- `PointLight` from src/rays.rs. -/
structure PointLight where
  position : Tuple
  intensity : Color

/-- `lighting` from src/rays.rs.  Note the source combines the surface color
with the light's intensity by `+` (`&material.color + &light.intensity`), not
by component-wise multiplication.  `diffuse` and `specular` start out black
and are assigned only inside the `light_dot_normal > 0` branch; `powf` is
embedded as `Real.rpow`. -/
def lighting (material : Material) (light : PointLight) (position eye normal : Tuple) :
    Color :=
  let effective_color := material.color.add light.intensity
  let light_direction := (light.position.sub position).normalize
  let ambient := effective_color.mulScalar material.ambient
  let light_dot_normal := light_direction.dot normal
  let ds : Color × Color :=
    if 0 < light_dot_normal then
      let diffuse := (effective_color.mulScalar material.diffuse).mulScalar light_dot_normal
      let reflection_direction := (light_direction.reflect normal).neg
      let reflect_dot_eye := reflection_direction.dot eye
      let specular :=
        if reflect_dot_eye ≤ 0 then Color.black
        else (light.intensity.mulScalar material.specular).mulScalar
          (reflect_dot_eye ^ material.shininess)
      (diffuse, specular)
    else
      (Color.black, Color.black)
  (ambient.add ds.1).add ds.2

/-! ## Helper lemmas -/

lemma sqrt_hundred : Real.sqrt 100 = 10 := by
  rw [show (100 : ℝ) = 10 ^ 2 by norm_num, Real.sqrt_sq (by norm_num : (0 : ℝ) ≤ 10)]

lemma sqrt_four : Real.sqrt 4 = 2 := by
  rw [show (4 : ℝ) = 2 ^ 2 by norm_num, Real.sqrt_sq (by norm_num : (0 : ℝ) ≤ 2)]

lemma determinant_identity : Matrix.identity.determinant = 1 := by
  norm_num [Matrix.identity, Matrix.determinant, Matrix.submatrix, Matrix.get, List.enum,
    List.enumFrom, List.eraseIdx]

set_option maxHeartbeats 1000000 in
/-- The identity matrix is its own inverse under the cofactor algorithm. -/
lemma inverse_identity : Matrix.identity.inverse = some Matrix.identity := by
  rw [Matrix.inverse, if_pos (by rw [determinant_identity]; norm_num)]
  simp only [Matrix.identity, List.mapIdx_cons, List.mapIdx_nil]
  norm_num [determinant_identity, Matrix.cofactor, Matrix.minor, Matrix.determinant,
    Matrix.submatrix, Matrix.get, List.enum, List.enumFrom, List.eraseIdx]

lemma is_float_equal_of_eq {a b : ℝ} (h : a = b) : is_float_equal a b := by
  rw [is_float_equal, h]
  norm_num [EPSILON]

lemma sub_sqrt_div_le_add_sqrt_div (b d den : ℝ) (hden : 0 ≤ den) :
    (-b - Real.sqrt d) / den ≤ (-b + Real.sqrt d) / den := by
  rcases eq_or_lt_of_le hden with h0 | hpos
  · rw [← h0]
    simp
  · have hs := Real.sqrt_nonneg d
    exact (div_le_div_iff_of_pos_right hpos).2 (by linarith)

lemma scale2_matrix :
    Matrix.identity.scale 2 2 2 =
      Matrix.mk [[2, 0, 0, 0], [0, 2, 0, 0], [0, 0, 2, 0], [0, 0, 0, 1]] := by
  simp only [Matrix.scale, scalingMatrix, Matrix.identity, Matrix.mul, List.mapIdx_cons,
    List.mapIdx_nil, Matrix.get]
  norm_num

set_option maxHeartbeats 1000000 in
lemma inverse_scale2 :
    (Matrix.mk [[2, 0, 0, 0], [0, 2, 0, 0], [0, 0, 2, 0], [0, 0, 0, 1]]).inverse =
      some (Matrix.mk [[1/2, 0, 0, 0], [0, 1/2, 0, 0], [0, 0, 1/2, 0], [0, 0, 0, 1]]) := by
  have hdet : (Matrix.mk [[2, 0, 0, 0], [0, 2, 0, 0], [0, 0, 2, 0],
      [0, 0, 0, 1]]).determinant = 8 := by
    norm_num [Matrix.determinant, Matrix.submatrix, Matrix.get, List.enum, List.enumFrom,
      List.eraseIdx]
  rw [Matrix.inverse, if_pos (by rw [hdet]; norm_num)]
  simp only [List.mapIdx_cons, List.mapIdx_nil, hdet]
  norm_num [Matrix.cofactor, Matrix.minor, Matrix.determinant, Matrix.submatrix,
    Matrix.get, List.enum, List.enumFrom, List.eraseIdx]

lemma translate5_matrix :
    Matrix.identity.translate 5 0 0 =
      Matrix.mk [[1, 0, 0, 5], [0, 1, 0, 0], [0, 0, 1, 0], [0, 0, 0, 1]] := by
  simp only [Matrix.translate, translationMatrix, Matrix.identity, Matrix.mul,
    List.mapIdx_cons, List.mapIdx_nil, Matrix.get]
  norm_num

set_option maxHeartbeats 1000000 in
lemma inverse_translate5 :
    (Matrix.mk [[1, 0, 0, 5], [0, 1, 0, 0], [0, 0, 1, 0], [0, 0, 0, 1]]).inverse =
      some (Matrix.mk [[1, 0, 0, -5], [0, 1, 0, 0], [0, 0, 1, 0], [0, 0, 0, 1]]) := by
  have hdet : (Matrix.mk [[1, 0, 0, 5], [0, 1, 0, 0], [0, 0, 1, 0],
      [0, 0, 0, 1]]).determinant = 1 := by
    norm_num [Matrix.determinant, Matrix.submatrix, Matrix.get, List.enum, List.enumFrom,
      List.eraseIdx]
  rw [Matrix.inverse, if_pos (by rw [hdet]; norm_num)]
  simp only [List.mapIdx_cons, List.mapIdx_nil, hdet]
  norm_num [Matrix.cofactor, Matrix.minor, Matrix.determinant, Matrix.submatrix,
    Matrix.get, List.enum, List.enumFrom, List.eraseIdx]

/-! ## Claims -/

/-- C2: `lighting` with the default material, a white point light at
`(0,0,-10)`, the surface at the origin, eye `(0,0,-1)` and normal `(0,0,-1)`
returns exactly `Color (1.9, 1.9, 1.9)`. -/
theorem lighting_eye_between_light_and_surface :
    lighting Material.new ⟨Tuple.point 0 0 (-10), Color.white⟩ (Tuple.point 0 0 0)
        (Tuple.vector 0 0 (-1)) (Tuple.vector 0 0 (-1)) =
      ⟨1.9, 1.9, 1.9⟩ := by
  norm_num [lighting, Material.new, Color.white, Color.black, Color.add, Color.mulScalar,
    Tuple.point, Tuple.vector, Tuple.sub, Tuple.normalize, Tuple.magnitude, Tuple.dot,
    Tuple.reflect, Tuple.mulScalar, Tuple.neg, rpow_two_eq_mul_self, sqrt_hundred]

/-- C1 (counterexample): at a material with color `(1,0,0)`, a white light
behind the surface (so only the ambient term survives), `lighting` returns
`(0.2, 0.1, 0.1)` — the ambient term built from the component-wise *sum* —
whereas the claimed component-wise product would make the ambient term
`(0.1, 0, 0)`. -/
theorem lighting_effective_color_not_product :
    lighting ⟨⟨1, 0, 0⟩, 0.1, 0.9, 0.9, 200⟩ ⟨Tuple.point 0 0 10, Color.white⟩
        (Tuple.point 0 0 0) (Tuple.vector 0 0 (-1)) (Tuple.vector 0 0 (-1)) =
      ⟨0.2, 0.1, 0.1⟩ ∧
    (Color.mulColor ⟨1, 0, 0⟩ Color.white).mulScalar (0.1 : ℝ) = ⟨0.1, 0, 0⟩ ∧
    (⟨0.2, 0.1, 0.1⟩ : Color) ≠ ⟨0.1, 0, 0⟩ := by
  refine ⟨?_, ?_, ?_⟩
  · norm_num [lighting, Color.white, Color.black, Color.add, Color.mulScalar,
      Tuple.point, Tuple.vector, Tuple.sub, Tuple.normalize, Tuple.magnitude, Tuple.dot,
      Tuple.reflect, Tuple.mulScalar, Tuple.neg, rpow_two_eq_mul_self, sqrt_hundred]
  · norm_num [Color.mulColor, Color.white, Color.mulScalar]
  · intro h
    have := congrArg Color.red h
    norm_num at this

/-- C1 (amended): in `lighting`, the effective color used for the ambient and
diffuse terms is the component-wise *sum* `material.color + light.intensity`
(not the product): the result is always
`effective*ambient + (effective*diffuse*ldn when the light faces the surface)
+ (intensity*specular*factor when additionally the reflection faces the eye)`
with `effective` the component-wise sum. -/
theorem lighting_effective_color_is_sum (material : Material) (light : PointLight)
    (position eye normal : Tuple) :
    lighting material light position eye normal =
      ((((material.color.add light.intensity).mulScalar material.ambient).add
          (if 0 < (light.position.sub position).normalize.dot normal then
            (((material.color.add light.intensity).mulScalar material.diffuse).mulScalar
              ((light.position.sub position).normalize.dot normal))
          else Color.black)).add
        (if 0 < (light.position.sub position).normalize.dot normal ∧
            0 < ((((light.position.sub position).normalize.reflect normal).neg).dot eye) then
          ((light.intensity.mulScalar material.specular).mulScalar
            ((((((light.position.sub position).normalize.reflect normal).neg).dot eye)) ^
              material.shininess))
        else Color.black)) := by
  by_cases h1 : 0 < (light.position.sub position).normalize.dot normal
  · by_cases h2 : ((((light.position.sub position).normalize.reflect normal).neg).dot eye) ≤ 0
    · simp [lighting, h1, h2, not_lt.2 h2]
    · simp [lighting, h1, h2, not_le.1 h2]
  · simp [lighting, h1]

lemma hitStep_of_neg {acc : Option Intersection} {i : Intersection} (h : i.time < 0) :
    hitStep acc i = acc := by
  simp [hitStep, h]

lemma hitStep_some {a : Intersection} (i : Intersection) :
    ∃ b, hitStep (some a) i = some b ∧ (b = a ∨ (b = i ∧ 0 ≤ i.time)) ∧
      b.time ≤ a.time ∧ (0 ≤ i.time → b.time ≤ i.time) := by
  by_cases hneg : i.time < 0
  · exact ⟨a, by simp [hitStep, hneg], Or.inl rfl, le_refl _, fun h => absurd h (not_le.2 hneg)⟩
  · by_cases hlt : i.time < a.time
    · exact ⟨i, by simp [hitStep, hneg, hlt], Or.inr ⟨rfl, not_lt.1 hneg⟩, le_of_lt hlt,
        fun _ => le_refl _⟩
    · exact ⟨a, by simp [hitStep, hneg, hlt], Or.inl rfl, le_refl _, fun _ => not_lt.1 hlt⟩

lemma foldl_hitStep_isSome (l : List Intersection) :
    ∀ a : Intersection, (l.foldl hitStep (some a)).isSome := by
  induction l with
  | nil => intro a; rfl
  | cons i t ih =>
    intro a
    obtain ⟨b, hb, -, -, -⟩ := hitStep_some (a := a) i
    simpa [List.foldl_cons, hb] using ih b

lemma foldl_hitStep_mem (l : List Intersection) :
    ∀ (acc : Option Intersection) (r : Intersection), l.foldl hitStep acc = some r →
      acc = some r ∨ (r ∈ l ∧ 0 ≤ r.time) := by
  induction l with
  | nil => intro acc r h; exact Or.inl h
  | cons i t ih =>
    intro acc r h
    rw [List.foldl_cons] at h
    rcases ih (hitStep acc i) r h with hstep | hmem
    · by_cases hneg : i.time < 0
      · rw [hitStep_of_neg hneg] at hstep
        exact Or.inl hstep
      · cases acc with
        | none =>
          simp only [hitStep, hneg, if_false] at hstep
          have : i = r := by simpa using hstep
          exact Or.inr ⟨this ▸ List.mem_cons_self i t, this ▸ not_lt.1 hneg⟩
        | some a =>
          obtain ⟨b, hb, hcase, -, -⟩ := hitStep_some (a := a) i
          rw [hb] at hstep
          have hbr : b = r := by simpa using hstep
          rcases hcase with hba | ⟨hbi, hnn⟩
          · exact Or.inl (by rw [← hba, hbr])
          · exact Or.inr ⟨(hbi ▸ hbr) ▸ List.mem_cons_self i t, by
              rw [← hbr, hbi]; exact hnn⟩
    · exact Or.inr ⟨List.mem_cons_of_mem i hmem.1, hmem.2⟩

lemma foldl_hitStep_min (l : List Intersection) :
    ∀ (acc : Option Intersection) (r : Intersection), l.foldl hitStep acc = some r →
      (∀ a, acc = some a → r.time ≤ a.time) ∧
        (∀ i ∈ l, 0 ≤ i.time → r.time ≤ i.time) := by
  induction l with
  | nil =>
    intro acc r h
    refine ⟨fun a ha => ?_, fun i hi => absurd hi (List.not_mem_nil i)⟩
    rw [List.foldl_nil] at h
    rw [h] at ha
    simp_all
  | cons i t ih =>
    intro acc r h
    rw [List.foldl_cons] at h
    obtain ⟨hacc, htail⟩ := ih (hitStep acc i) r h
    constructor
    · intro a ha
      subst ha
      obtain ⟨b, hb, -, hba, -⟩ := hitStep_some (a := a) i
      exact le_trans (hacc b hb) hba
    · intro j hj hjnn
      rcases List.mem_cons.1 hj with hji | hjt
      · subst hji
        cases acc with
        | none =>
          have : hitStep none j = some j := by
            simp [hitStep, not_lt.2 hjnn]
          exact hacc j this
        | some a =>
          obtain ⟨b, hb, -, -, hbj⟩ := hitStep_some (a := a) j
          exact le_trans (hacc b hb) (hbj hjnn)
      · exact htail j hjt hjnn

lemma hit_none_of_all_neg (l : List Intersection) (h : ∀ i ∈ l, i.time < 0) :
    hit l = none := by
  induction l with
  | nil => rfl
  | cons i t ih =>
    rw [hit, List.foldl_cons, hitStep_of_neg (h i (List.mem_cons_self i t))]
    exact ih fun j hj => h j (List.mem_cons_of_mem i hj)

lemma foldl_hitStep_isSome_of_exists (l : List Intersection) :
    ∀ acc : Option Intersection, (∃ i ∈ l, 0 ≤ i.time) →
      (l.foldl hitStep acc).isSome := by
  induction l with
  | nil => intro acc h; simp at h
  | cons j t ih =>
    intro acc h
    rw [List.foldl_cons]
    by_cases hjn : j.time < 0
    · rw [hitStep_of_neg hjn]
      apply ih
      obtain ⟨i, hi, hnn⟩ := h
      rcases List.mem_cons.1 hi with hij | hmem
      · subst hij; exact absurd hnn (not_le.2 hjn)
      · exact ⟨i, hmem, hnn⟩
    · cases acc with
      | none =>
        simp only [hitStep, hjn, if_false]
        exact foldl_hitStep_isSome t j
      | some a =>
        obtain ⟨b, hb, -, -, -⟩ := hitStep_some (a := a) j
        rw [hb]
        exact foldl_hitStep_isSome t b

lemma hit_isSome_of_exists_nonneg (l : List Intersection)
    (h : ∃ i ∈ l, 0 ≤ i.time) : (hit l).isSome :=
  foldl_hitStep_isSome_of_exists l none h

/-- C5: `hit` returns an intersection whose time is the minimum of the
non-negative times whenever one exists (it is in the list, non-negative, and
no smaller non-negative time occurs), and returns `none` on the empty list or
when every time is negative; over times `[5, 7, -3, 2]` it returns the
intersection at `t = 2`, and over `[-2, -1]` it returns none. -/
theorem hit_selects_min_nonneg :
    (∀ l : List Intersection,
      ((∃ i ∈ l, 0 ≤ i.time) →
        ∃ r, hit l = some r ∧ r ∈ l ∧ 0 ≤ r.time ∧
          ∀ i ∈ l, 0 ≤ i.time → r.time ≤ i.time) ∧
      ((l = [] ∨ ∀ i ∈ l, i.time < 0) → hit l = none)) ∧
    (∀ s : Sphere,
      hit [⟨5, s⟩, ⟨7, s⟩, ⟨-3, s⟩, ⟨2, s⟩] = some ⟨2, s⟩ ∧
      hit [⟨-2, s⟩, ⟨-1, s⟩] = none) := by
  constructor
  · intro l
    constructor
    · intro h
      obtain ⟨r, hr⟩ := Option.isSome_iff_exists.1 (hit_isSome_of_exists_nonneg l h)
      rcases foldl_hitStep_mem l none r hr with hacc | ⟨hmem, hnn⟩
      · exact absurd hacc (by simp)
      · exact ⟨r, hr, hmem, hnn, (foldl_hitStep_min l none r hr).2⟩
    · rintro (rfl | hneg)
      · rfl
      · exact hit_none_of_all_neg l hneg
  · intro s
    constructor
    · norm_num [hit, hitStep]
    · norm_num [hit, hitStep]

/-- Witness for `hit_selects_min_nonneg`: instantiated at the list of times
`[5, 7, -3, 2]` on the identity sphere. -/
theorem hit_selects_min_nonneg_witness :
    (∃ i ∈ ([⟨5, Sphere.with_transform Matrix.identity⟩,
        ⟨7, Sphere.with_transform Matrix.identity⟩,
        ⟨-3, Sphere.with_transform Matrix.identity⟩,
        ⟨2, Sphere.with_transform Matrix.identity⟩] : List Intersection), 0 ≤ i.time) ∧
    (∃ r, hit [⟨5, Sphere.with_transform Matrix.identity⟩,
        ⟨7, Sphere.with_transform Matrix.identity⟩,
        ⟨-3, Sphere.with_transform Matrix.identity⟩,
        ⟨2, Sphere.with_transform Matrix.identity⟩] = some r ∧
      r ∈ ([⟨5, Sphere.with_transform Matrix.identity⟩,
        ⟨7, Sphere.with_transform Matrix.identity⟩,
        ⟨-3, Sphere.with_transform Matrix.identity⟩,
        ⟨2, Sphere.with_transform Matrix.identity⟩] : List Intersection) ∧ 0 ≤ r.time ∧
      ∀ i ∈ ([⟨5, Sphere.with_transform Matrix.identity⟩,
        ⟨7, Sphere.with_transform Matrix.identity⟩,
        ⟨-3, Sphere.with_transform Matrix.identity⟩,
        ⟨2, Sphere.with_transform Matrix.identity⟩] : List Intersection),
        0 ≤ i.time → r.time ≤ i.time) := by
  have h : ∃ i ∈ ([⟨5, Sphere.with_transform Matrix.identity⟩,
      ⟨7, Sphere.with_transform Matrix.identity⟩,
      ⟨-3, Sphere.with_transform Matrix.identity⟩,
      ⟨2, Sphere.with_transform Matrix.identity⟩] : List Intersection), 0 ≤ i.time :=
    ⟨⟨5, Sphere.with_transform Matrix.identity⟩, by simp, by norm_num⟩
  exact ⟨h, (hit_selects_min_nonneg.1 _).1 h⟩

/-- C6 (counterexample): `hit` keeps the *first* intersection among equal
non-negative times, so on two intersections with time 2 on two distinct
spheres (ids 0 and 1) the result depends on the order of the list. -/
theorem hit_not_perm_invariant :
    (([⟨2, ⟨0, Matrix.identity, Material.new⟩⟩,
        ⟨2, ⟨1, Matrix.identity, Material.new⟩⟩] : List Intersection).Perm
      [⟨2, ⟨1, Matrix.identity, Material.new⟩⟩,
        ⟨2, ⟨0, Matrix.identity, Material.new⟩⟩]) ∧
    hit [⟨2, ⟨0, Matrix.identity, Material.new⟩⟩,
        ⟨2, ⟨1, Matrix.identity, Material.new⟩⟩] =
      some ⟨2, ⟨0, Matrix.identity, Material.new⟩⟩ ∧
    hit [⟨2, ⟨1, Matrix.identity, Material.new⟩⟩,
        ⟨2, ⟨0, Matrix.identity, Material.new⟩⟩] =
      some ⟨2, ⟨1, Matrix.identity, Material.new⟩⟩ ∧
    (⟨2, ⟨0, Matrix.identity, Material.new⟩⟩ : Intersection) ≠
      ⟨2, ⟨1, Matrix.identity, Material.new⟩⟩ := by
  refine ⟨List.Perm.swap _ _ _, ?_, ?_, ?_⟩
  · norm_num [hit, hitStep]
  · norm_num [hit, hitStep]
  · intro h
    have := congrArg (fun i : Intersection => i.object.id) h
    norm_num at this

/-- C6 (amended): the *time* of the hit is permutation-invariant — on any two
lists that are permutations of each other, `hit` returns `none` on both or
intersections with equal time (when equal smallest times occur on distinct
spheres, which intersection is returned still depends on the order). -/
theorem hit_time_perm_invariant (l l' : List Intersection) (h : l.Perm l') :
    Option.map Intersection.time (hit l) = Option.map Intersection.time (hit l') := by
  cases hl : hit l with
  | none =>
    cases hl' : hit l' with
    | none => rfl
    | some r' =>
      rcases foldl_hitStep_mem l' none r' hl' with hacc | ⟨hmem, hnn⟩
      · exact absurd hacc (by simp)
      · have hsome : (hit l).isSome :=
          hit_isSome_of_exists_nonneg l ⟨r', h.mem_iff.2 hmem, hnn⟩
        rw [hl] at hsome
        exact absurd hsome (by simp)
  | some r =>
    cases hl' : hit l' with
    | none =>
      rcases foldl_hitStep_mem l none r hl with hacc | ⟨hmem, hnn⟩
      · exact absurd hacc (by simp)
      · have hsome : (hit l').isSome :=
          hit_isSome_of_exists_nonneg l' ⟨r, h.mem_iff.1 hmem, hnn⟩
        rw [hl'] at hsome
        exact absurd hsome (by simp)
    | some r' =>
      rcases foldl_hitStep_mem l none r hl with hacc | ⟨hmem, hnn⟩
      · exact absurd hacc (by simp)
      rcases foldl_hitStep_mem l' none r' hl' with hacc' | ⟨hmem', hnn'⟩
      · exact absurd hacc' (by simp)
      have h1 : r.time ≤ r'.time :=
        (foldl_hitStep_min l none r hl).2 r' (h.mem_iff.2 hmem') hnn'
      have h2 : r'.time ≤ r.time :=
        (foldl_hitStep_min l' none r' hl').2 r (h.mem_iff.1 hmem) hnn
      simp [le_antisymm h1 h2]

/-- Witness for `hit_time_perm_invariant`: the two-element swap of equal-time
intersections on distinct spheres. -/
theorem hit_time_perm_invariant_witness :
    (([⟨2, ⟨0, Matrix.identity, Material.new⟩⟩,
        ⟨2, ⟨1, Matrix.identity, Material.new⟩⟩] : List Intersection).Perm
      [⟨2, ⟨1, Matrix.identity, Material.new⟩⟩,
        ⟨2, ⟨0, Matrix.identity, Material.new⟩⟩]) ∧
    Option.map Intersection.time
        (hit [⟨2, ⟨0, Matrix.identity, Material.new⟩⟩,
          ⟨2, ⟨1, Matrix.identity, Material.new⟩⟩]) =
      Option.map Intersection.time
        (hit [⟨2, ⟨1, Matrix.identity, Material.new⟩⟩,
          ⟨2, ⟨0, Matrix.identity, Material.new⟩⟩]) :=
  ⟨List.Perm.swap _ _ _, hit_time_perm_invariant _ _ (List.Perm.swap _ _ _)⟩

/-- C7: on a sphere whose transform has determinant 0, both `intersect` and
`normal_at` return `none` — the absent inverse is propagated as an optional
value (in this total embedding, no other outcome such as a panic is even
expressible, matching the source's `Option` plumbing). -/
theorem intersect_normal_at_none_of_singular (r : Ray) (s : Sphere) (p : Tuple)
    (h : s.transform.determinant = 0) :
    r.intersect s = none ∧ s.normal_at p = none := by
  have hinv : s.transform.inverse = none := by
    rw [Matrix.inverse, if_neg]
    simp [h]
  constructor
  · rw [Ray.intersect, hinv]
  · rw [Sphere.normal_at, hinv]

/-- Witness for `intersect_normal_at_none_of_singular`: the sphere carrying
the repository's own singular test matrix (zero last row). -/
theorem intersect_normal_at_none_witness :
    (Sphere.with_transform
        (Matrix.mk [[-4, 2, -2, -3], [9, 6, 2, 6], [0, -5, 1, -5],
          [0, 0, 0, 0]])).transform.determinant = 0 ∧
    (Ray.mk (Tuple.point 0 0 (-5)) (Tuple.vector 0 0 1)).intersect
        (Sphere.with_transform
          (Matrix.mk [[-4, 2, -2, -3], [9, 6, 2, 6], [0, -5, 1, -5],
            [0, 0, 0, 0]])) = none ∧
    (Sphere.with_transform
        (Matrix.mk [[-4, 2, -2, -3], [9, 6, 2, 6], [0, -5, 1, -5],
          [0, 0, 0, 0]])).normal_at (Tuple.point 0 0 0) = none := by
  have h : (Sphere.with_transform
      (Matrix.mk [[-4, 2, -2, -3], [9, 6, 2, 6], [0, -5, 1, -5],
        [0, 0, 0, 0]])).transform.determinant = 0 := by
    norm_num [Sphere.with_transform, Matrix.determinant, Matrix.submatrix, Matrix.get,
      List.enum, List.enumFrom, List.eraseIdx]
  exact ⟨h,
    (intersect_normal_at_none_of_singular (Ray.mk (Tuple.point 0 0 (-5)) (Tuple.vector 0 0 1))
      _ (Tuple.point 0 0 0) h).1,
    (intersect_normal_at_none_of_singular (Ray.mk (Tuple.point 0 0 (-5)) (Tuple.vector 0 0 1))
      _ (Tuple.point 0 0 0) h).2⟩

/-- C10: a ray whose direction is the zero vector, intersected with a sphere
carrying the identity transform, is *not* reported as a miss: the object-space
quadratic has `a = b = 0`, the discriminant evaluates to `0` (not negative),
and the unguarded divisions by `2a = 0` produce the two times
`(-0 - √0) / (2·0)` and `(-0 + √0) / (2·0)` — in IEEE `f64` both are the NaN
`0/0`, which real division cannot express; the theorem exhibits the exact
numerator-0, denominator-0 division the code performs. -/
theorem intersect_zero_direction_unguarded (s : Sphere) (h : s.transform = Matrix.identity)
    (origin : Tuple) :
    (Ray.mk origin (Tuple.vector 0 0 0)).intersect s =
      some [⟨(-0 - Real.sqrt 0) / (2 * 0), s⟩, ⟨(-0 + Real.sqrt 0) / (2 * 0), s⟩] := by
  rw [Ray.intersect, h, inverse_identity]
  norm_num [Ray.transformBy, Matrix.mulTuple, Matrix.get, Matrix.identity, Tuple.point,
    Tuple.vector, Tuple.sub, Tuple.dot]

/-- C4: whenever the sphere's transform is invertible and the object-space
discriminant `b² - 4ac` is non-negative, `intersect` returns exactly two
intersections at `(-b - √d)/(2a)` then `(-b + √d)/(2a)` — the smaller root
first — each carrying the sphere (a tangent ray has `d = 0` and the two times
coincide).  Concretely, the ray `(0,0,-5) → (0,0,1)` hits the
identity-transform sphere at `t = 4` and `t = 6`, hits the sphere scaled by 2
in all axes at `t = 3` and `t = 7`, and misses the sphere translated by
`(5,0,0)`. -/
theorem intersect_two_roots :
    (∀ (r : Ray) (s : Sphere) (minv : Matrix) (a b c d : ℝ),
      s.transform.inverse = some minv →
      a = (r.transformBy minv).direction.dot (r.transformBy minv).direction →
      b = 2 * (r.transformBy minv).direction.dot
        ((r.transformBy minv).origin.sub (Tuple.point 0 0 0)) →
      c = ((r.transformBy minv).origin.sub (Tuple.point 0 0 0)).dot
        ((r.transformBy minv).origin.sub (Tuple.point 0 0 0)) - 1 →
      d = b * b - 4 * a * c →
      0 ≤ d →
      r.intersect s =
        some [⟨(-b - Real.sqrt d) / (2 * a), s⟩, ⟨(-b + Real.sqrt d) / (2 * a), s⟩] ∧
      (-b - Real.sqrt d) / (2 * a) ≤ (-b + Real.sqrt d) / (2 * a)) ∧
    ((Ray.mk (Tuple.point 0 0 (-5)) (Tuple.vector 0 0 1)).intersect
        (Sphere.with_transform Matrix.identity) =
      some [⟨4, Sphere.with_transform Matrix.identity⟩,
        ⟨6, Sphere.with_transform Matrix.identity⟩]) ∧
    ((Ray.mk (Tuple.point 0 0 (-5)) (Tuple.vector 0 0 1)).intersect
        (Sphere.with_transform (Matrix.identity.scale 2 2 2)) =
      some [⟨3, Sphere.with_transform (Matrix.identity.scale 2 2 2)⟩,
        ⟨7, Sphere.with_transform (Matrix.identity.scale 2 2 2)⟩]) ∧
    ((Ray.mk (Tuple.point 0 0 (-5)) (Tuple.vector 0 0 1)).intersect
        (Sphere.with_transform (Matrix.identity.translate 5 0 0)) = none) := by
  refine ⟨?_, ?_, ?_, ?_⟩
  · intro r s minv a b c d hinv ha hb hc hd hnn
    subst hd
    subst hc
    subst hb
    subst ha
    have hva : 0 ≤ (r.transformBy minv).direction.dot (r.transformBy minv).direction := by
      rw [Tuple.dot]
      nlinarith [sq_nonneg (r.transformBy minv).direction.x,
        sq_nonneg (r.transformBy minv).direction.y,
        sq_nonneg (r.transformBy minv).direction.z,
        sq_nonneg (r.transformBy minv).direction.w]
    constructor
    · simp only [Ray.intersect, hinv]
      rw [if_neg (not_lt.2 hnn)]
    · exact sub_sqrt_div_le_add_sqrt_div _ _ _ (by linarith)
  · simp only [Ray.intersect, Sphere.with_transform, inverse_identity]
    norm_num [Ray.transformBy, Matrix.mulTuple, Matrix.get, Matrix.identity, Tuple.point,
      Tuple.vector, Tuple.sub, Tuple.dot, sqrt_four]
  · simp only [Ray.intersect, Sphere.with_transform, scale2_matrix, inverse_scale2]
    norm_num [Ray.transformBy, Matrix.mulTuple, Matrix.get, Tuple.point,
      Tuple.vector, Tuple.sub, Tuple.dot, Real.sqrt_one]
  · simp only [Ray.intersect, Sphere.with_transform, translate5_matrix, inverse_translate5]
    norm_num [Ray.transformBy, Matrix.mulTuple, Matrix.get, Tuple.point,
      Tuple.vector, Tuple.sub, Tuple.dot]

/-- Witness for `intersect_two_roots`: the ray `(0,0,-5) → (0,0,1)` against
the identity-transform sphere, with `a = 1`, `b = -10`, `c = 24`, `d = 4`. -/
theorem intersect_two_roots_witness :
    ((Sphere.with_transform Matrix.identity).transform.inverse = some Matrix.identity) ∧
    (0 : ℝ) ≤ 4 ∧
    ((Ray.mk (Tuple.point 0 0 (-5)) (Tuple.vector 0 0 1)).intersect
        (Sphere.with_transform Matrix.identity) =
      some [⟨(-(-10) - Real.sqrt 4) / (2 * 1), Sphere.with_transform Matrix.identity⟩,
        ⟨(-(-10) + Real.sqrt 4) / (2 * 1), Sphere.with_transform Matrix.identity⟩]) ∧
    (-(-10 : ℝ) - Real.sqrt 4) / (2 * 1) ≤ (-(-10 : ℝ) + Real.sqrt 4) / (2 * 1) := by
  have hinv : (Sphere.with_transform Matrix.identity).transform.inverse =
      some Matrix.identity := inverse_identity
  have happ := intersect_two_roots.1
    (Ray.mk (Tuple.point 0 0 (-5)) (Tuple.vector 0 0 1))
    (Sphere.with_transform Matrix.identity) Matrix.identity 1 (-10) 24 4 hinv
    (by norm_num [Ray.transformBy, Matrix.mulTuple, Matrix.get, Matrix.identity,
      Tuple.point, Tuple.vector, Tuple.dot])
    (by norm_num [Ray.transformBy, Matrix.mulTuple, Matrix.get, Matrix.identity,
      Tuple.point, Tuple.vector, Tuple.sub, Tuple.dot])
    (by norm_num [Ray.transformBy, Matrix.mulTuple, Matrix.get, Matrix.identity,
      Tuple.point, Tuple.vector, Tuple.sub, Tuple.dot])
    (by norm_num) (by norm_num)
  exact ⟨hinv, by norm_num, happ.1, happ.2⟩

set_option maxHeartbeats 16000000 in
/-- C8: for every invertible 4x4 matrix (determinant nonzero, entries
arbitrary), `M * inverse(M)` is tolerance-equal to the identity matrix: every
entry differs from the identity's entry by less than `EPSILON = 1e-5` (in this
exact-real embedding the entries are in fact equal, which implies the
tolerance bound). -/
theorem mul_inverse_tolerance_identity
    (a00 a01 a02 a03 a10 a11 a12 a13 a20 a21 a22 a23 a30 a31 a32 a33 : ℝ)
    (hdet : (Matrix.mk [[a00, a01, a02, a03], [a10, a11, a12, a13],
      [a20, a21, a22, a23], [a30, a31, a32, a33]]).determinant ≠ 0)
    (minv : Matrix)
    (hminv : (Matrix.mk [[a00, a01, a02, a03], [a10, a11, a12, a13],
      [a20, a21, a22, a23], [a30, a31, a32, a33]]).inverse = some minv)
    (i j : ℕ) (hi : i < 4) (hj : j < 4) :
    is_float_equal
      (((Matrix.mk [[a00, a01, a02, a03], [a10, a11, a12, a13],
        [a20, a21, a22, a23], [a30, a31, a32, a33]]).mul minv).get i j)
      (Matrix.identity.get i j) := by
  rw [Matrix.inverse, if_pos hdet] at hminv
  have hm := Option.some.inj hminv
  subst hm
  interval_cases i <;> interval_cases j <;>
    · apply is_float_equal_of_eq
      simp only [Matrix.mul, Matrix.get, Matrix.cofactor, Matrix.minor, Matrix.submatrix,
        Matrix.identity, List.mapIdx_cons, List.mapIdx_nil] at hdet ⊢
      simp [Matrix.determinant, Matrix.submatrix, Matrix.get, List.enum, List.enumFrom,
        List.eraseIdx] at hdet ⊢
      try field_simp
      try ring

/-- Witness for `mul_inverse_tolerance_identity`: the identity matrix itself,
at entry `(0,0)`. -/
theorem mul_inverse_tolerance_identity_witness :
    ((Matrix.mk [[1, 0, 0, 0], [0, 1, 0, 0], [0, 0, 1, 0],
      [0, 0, 0, 1]]).determinant ≠ 0) ∧
    ((Matrix.mk [[1, 0, 0, 0], [0, 1, 0, 0], [0, 0, 1, 0],
      [0, 0, 0, 1]]).inverse = some Matrix.identity) ∧
    (0 < 4 ∧ 0 < 4) ∧
    is_float_equal
      (((Matrix.mk [[1, 0, 0, 0], [0, 1, 0, 0], [0, 0, 1, 0],
        [0, 0, 0, 1]]).mul Matrix.identity).get 0 0)
      (Matrix.identity.get 0 0) := by
  have hdet : (Matrix.mk [[1, 0, 0, 0], [0, 1, 0, 0], [0, 0, 1, 0],
      [0, 0, 0, 1]]).determinant ≠ 0 := by
    rw [show (Matrix.mk [[1, 0, 0, 0], [0, 1, 0, 0], [0, 0, 1, 0],
      [0, 0, 0, 1]] : Matrix) = Matrix.identity from rfl, determinant_identity]
    norm_num
  exact ⟨hdet, inverse_identity, ⟨by norm_num, by norm_num⟩,
    mul_inverse_tolerance_identity 1 0 0 0 0 1 0 0 0 0 1 0 0 0 0 1 hdet Matrix.identity
      inverse_identity 0 0 (by norm_num) (by norm_num)⟩

/-- C9: the chained construction
`Matrix::identity().rotate_x(r).scale(sx,sy,sz).translate(tx,ty,tz)` equals
the matrix product `T * S * R` of the standard translation, scaling and
x-rotation matrices — each builder left-multiplies its transform, so the last
chained operation is the leftmost factor — and applied to any tuple it
rotates first, then scales, then translates. -/
theorem chained_transforms_compose_left (r sx sy sz tx ty tz : ℝ) :
    ((Matrix.identity.rotate_x r).scale sx sy sz).translate tx ty tz =
      (translationMatrix tx ty tz).mul
        ((scalingMatrix sx sy sz).mul (rotationXMatrix r)) ∧
    ∀ p : Tuple,
      ((((Matrix.identity.rotate_x r).scale sx sy sz).translate tx ty tz).mulTuple p) =
        (translationMatrix tx ty tz).mulTuple ((scalingMatrix sx sy sz).mulTuple
          ((rotationXMatrix r).mulTuple p)) := by
  have hchain :
      ((Matrix.identity.rotate_x r).scale sx sy sz).translate tx ty tz =
        (translationMatrix tx ty tz).mul
          ((scalingMatrix sx sy sz).mul (rotationXMatrix r)) := by
    simp only [Matrix.translate, Matrix.scale, Matrix.rotate_x, Matrix.mul,
      translationMatrix, scalingMatrix, rotationXMatrix, Matrix.identity, Matrix.get,
      List.mapIdx_cons, List.mapIdx_nil]
    norm_num
    try ring_nf
    try norm_num
  refine ⟨hchain, fun p => ?_⟩
  rw [hchain]
  simp only [Matrix.mul, Matrix.mulTuple, translationMatrix, scalingMatrix,
    rotationXMatrix, Matrix.get, List.mapIdx_cons, List.mapIdx_nil]
  norm_num
  try ring_nf
  try norm_num

/-- Witness for `intersect_zero_direction_unguarded`: the default
identity-transform sphere and a ray from the origin. -/
theorem intersect_zero_direction_witness :
    (Sphere.with_transform Matrix.identity).transform = Matrix.identity ∧
    (Ray.mk (Tuple.point 0 0 0) (Tuple.vector 0 0 0)).intersect
        (Sphere.with_transform Matrix.identity) =
      some [⟨(-0 - Real.sqrt 0) / (2 * 0), Sphere.with_transform Matrix.identity⟩,
        ⟨(-0 + Real.sqrt 0) / (2 * 0), Sphere.with_transform Matrix.identity⟩] :=
  ⟨rfl, intersect_zero_direction_unguarded (Sphere.with_transform Matrix.identity) rfl
    (Tuple.point 0 0 0)⟩

end

end RayTracer
